import Mathlib

/-!
Shallow embedding of the core of `high-write-load-client`, a PostgreSQL
load-generation client, together with proofs about the embedded code.

Source files embedded here:
- `config/config.go` (configuration and `Validate`)
- `clients/postgres/load_generator.go` (`LoadGenerator`: worker operation
  choice, `batchInsert` with `RETURNING id`, `CheckDataLoss`,
  `checkDataLossOptimized`)
- `clients/postgres/load_generator_v2.go` (`LoadGeneratorV2`: worker
  operation choice with a read band, `batchInsert` without `RETURNING`)
- `metrics/metrics.go` (`Metrics`, `RecordInsertedID`, `GetInsertedIDs`,
  `calculatePercentile`) and `metrics/metrics_v2.go` (`MetricsV2`)
- `connection_manager.go` (`GetConnectionStats`, `NewConnectionManager`)

The database is modelled as the finite set of row identifiers present in
the test table (`Finset Int`); a `COUNT(*)` query is the cardinality of
the matching subset.  The run's cancellation signal (`ctx.Done()`) is
modelled as a boolean function of the number of store queries issued so
far: `done q = true` means the signal has fired by the time the check
preceding query number `q` runs.  Go `int`/`int32`/`int64` values are
modelled as `Int` (no arithmetic here approaches the width bounds), and
`time.Duration` as an `Int` count of nanoseconds.
-/

namespace HWLC

/-! ## Configuration (`config/config.go`) -/

/-- One nanosecond-count second, Go's `time.Second`. -/
def timeSecond : Int := 1000000000

/-- `config.DBConfig`. -/
structure DBConfig where
  Host : String
  Port : Int
  User : String
  Password : String
  DBName : String
  SSLMode : String
  MaxOpenConns : Int
  MaxIdleConns : Int
  MinFreeConns : Int
deriving DecidableEq

/-- `config.LoadConfig`; `Duration` and `ReportInterval` are nanoseconds. -/
structure LoadConfig where
  ConcurrentWriters : Int
  Duration : Int
  BatchSize : Int
  ReportInterval : Int
deriving DecidableEq

/-- `config.WorkloadConfig`. -/
structure WorkloadConfig where
  ReadPercent : Int
  InsertPercent : Int
  UpdatePercent : Int
  TableName : String
  ReadBatchSize : Int
deriving DecidableEq

/-- `config.Config`. -/
structure Config where
  DB : DBConfig
  Load : LoadConfig
  Workload : WorkloadConfig
deriving DecidableEq

/-- The distinct error cases of `Config.Validate` (each Go error message
also interpolates the offending values; only the case identity matters
here). -/
inductive ConfigError where
  | emptyHost
  | emptyUser
  | emptyDBName
  | minFreeConnsTooSmall
  | concurrentWritersTooSmall
  | durationTooShort
  | batchSizeTooSmall
  | percentSumNot100
  | readPercentOutOfRange
  | insertPercentOutOfRange
  | updatePercentOutOfRange
  | readBatchSizeTooSmall
deriving DecidableEq

/-- `Config.Validate` (config.go lines 111-156), check for check in source
order. -/
def Validate (c : Config) : Except ConfigError Unit :=
  if c.DB.Host = "" then .error .emptyHost
  else if c.DB.User = "" then .error .emptyUser
  else if c.DB.DBName = "" then .error .emptyDBName
  else if c.DB.MinFreeConns < 1 then .error .minFreeConnsTooSmall
  else if c.Load.ConcurrentWriters < 1 then .error .concurrentWritersTooSmall
  else if c.Load.Duration < timeSecond then .error .durationTooShort
  else if c.Load.BatchSize < 1 then .error .batchSizeTooSmall
  else if c.Workload.ReadPercent + c.Workload.InsertPercent + c.Workload.UpdatePercent ≠ 100 then
    .error .percentSumNot100
  else if c.Workload.ReadPercent < 0 ∨ 100 < c.Workload.ReadPercent then
    .error .readPercentOutOfRange
  else if c.Workload.InsertPercent < 0 ∨ 100 < c.Workload.InsertPercent then
    .error .insertPercentOutOfRange
  else if c.Workload.UpdatePercent < 0 ∨ 100 < c.Workload.UpdatePercent then
    .error .updatePercentOutOfRange
  else if c.Workload.ReadBatchSize < 1 then .error .readBatchSizeTooSmall
  else .ok ()

/-! ## Metrics and inserted-identifier tracking (`metrics/metrics.go`)

`Metrics` is projected to the two fields the tracked-identifier claims
are about: the `sync.Map` of inserted IDs (a set of `int64` keys) and
the `totalInsertedIDs` atomic counter.  The latency buffers are embedded
separately through `calculatePercentile`, which is a standalone function
in the source. -/

/-- Inserted-ID tracking state of `metrics.Metrics`: `insertedIDs` is the
key set of the `sync.Map`, `totalInsertedIDs` the atomic counter. -/
structure Metrics where
  totalInsertedIDs : Nat
  insertedIDs : Finset Int
deriving DecidableEq

/-- `metrics.New()`: both the map and the counter start empty. -/
def Metrics.new : Metrics := ⟨0, ∅⟩

/-- `Metrics.RecordInsertedID` (metrics.go lines 208-211): store the key
in the map and add 1 to the counter. -/
def RecordInsertedID (m : Metrics) (id : Int) : Metrics :=
  ⟨m.totalInsertedIDs + 1, insert id m.insertedIDs⟩

/-- `Metrics.GetInsertedIDs` (metrics.go lines 214-223) enumerates the
map's key set; `sync.Map.Range` visits each key exactly once in an
unspecified order, embedded here as the sorted enumeration. -/
def GetInsertedIDs (m : Metrics) : List Int :=
  m.insertedIDs.sort (· ≤ ·)

/-- `LoadGenerator.batchInsert` (load_generator.go lines 212-259), viewed
through the metrics state: the insert statement ends in `RETURNING id`,
and the row loop calls `RecordInsertedID` on every returned identifier
(`returnedIDs`). -/
def batchInsert (m : Metrics) (returnedIDs : List Int) : Metrics :=
  returnedIDs.foldl RecordInsertedID m

/-- Identifiers passed to a record-inserted-identifier call during
`LoadGenerator.batchInsert` (load_generator.go lines 250-256): every
identifier returned by the `RETURNING id` clause is scanned and
recorded. -/
def recordedIDsOfBatchV1 (returnedIDs : List Int) : List Int :=
  returnedIDs

/-- Identifiers passed to a record-inserted-identifier call during
`LoadGeneratorV2.batchInsert` (load_generator_v2.go lines 383-417): the
statement carries no `RETURNING` clause, is executed with `ExecContext`,
and no identifier is scanned or recorded (`MetricsV2` has no
inserted-identifier tracking at all), whatever identifiers
(`returnedIDs`) the store assigned to the accepted rows. -/
def recordedIDsOfBatchV2 (_returnedIDs : List Int) : List Int :=
  []

/-! ## Percentiles (`metrics/metrics.go` lines 357-381) -/

/-- Index selection of `calculatePercentile`:
`index := int(float64(n) * float64(p) / 100.0)` — exact for the magnitudes
involved (`n ≤ 10000`), hence `n * p / 100` in integers — clamped to
`n - 1`. -/
def percentileIndex (n p : Nat) : Nat :=
  if n * p / 100 ≥ n then n - 1 else n * p / 100

/-- `calculatePercentile` (metrics.go lines 357-381): on an empty buffer
return 0; otherwise sort a private copy ascending (the source uses an
exchange sort; the result is the unique sorted permutation) and take the
clamped index.  Durations are `int64` nanosecond counts. -/
def calculatePercentile (durations : List Int) (percentile : Nat) : Int :=
  match durations with
  | [] => 0
  | _ :: _ =>
    (durations.insertionSort (· ≤ ·)).getD (percentileIndex durations.length percentile) 0

/-- Largest element of a latency buffer (`max(buffer)` in the spec's
percentile-sanity property); 0 on an empty buffer. -/
def maxOfBuffer : List Int → Int
  | [] => 0
  | x :: xs => xs.foldl max x

/-! ## Worker operation choice -/

/-- An operation kind: read, insert or update. -/
inductive OpKind where
  | read
  | insert
  | update
deriving DecidableEq

/-- Operation choice of `LoadGenerator.worker` (load_generator.go lines
172-180): `roll := rng.Intn(100)`; insert when
`roll < InsertPercent`, otherwise update.  There is no read band. -/
def chooseOpV1 (w : WorkloadConfig) (roll : Int) : OpKind :=
  if roll < w.InsertPercent then .insert else .update

/-- Operation choice of `LoadGeneratorV2.worker` (load_generator_v2.go
lines 173-185): read when `roll < ReadPercent`, else insert when
`roll < ReadPercent + InsertPercent`, else update. -/
def chooseOpV2 (w : WorkloadConfig) (roll : Int) : OpKind :=
  if roll < w.ReadPercent then .read
  else if roll < w.ReadPercent + w.InsertPercent then .insert
  else .update

/-- Modelled from the spec: the claimed cumulative-threshold selection
("read band, then insert band, then update band, first matching band
wins"), to be compared with the two workers' actual choices. -/
def bandChoice (w : WorkloadConfig) (roll : Int) : OpKind :=
  if roll < w.ReadPercent then .read
  else if roll < w.ReadPercent + w.InsertPercent then .insert
  else .update

/-! ## Capacity governor (`connection_manager.go`) -/

/-- `postgres.ConnectionStats`. -/
structure ConnectionStats where
  MaxConnections : Int
  CurrentConnections : Int
  AvailableConnections : Int
  CanConnect : Bool
deriving DecidableEq

/-- `ConnectionManager.GetConnectionStats` (connection_manager.go lines
101-128), as a function of the store's two introspection answers:
`maxConns` (`SHOW max_connections`) and `currentConns` (count of
non-idle sessions). -/
def GetConnectionStats (cfg : DBConfig) (maxConns currentConns : Int) : ConnectionStats :=
  { MaxConnections := maxConns
    CurrentConnections := currentConns
    AvailableConnections := maxConns - currentConns
    CanConnect := decide (maxConns - currentConns ≥ cfg.MinFreeConns) }

/-- The capacity error raised by `NewConnectionManager`: its message
interpolates the observed maximum, current and available connection
counts and the configured requirement. -/
structure CapacityError where
  maxConnections : Int
  currentConnections : Int
  availableConnections : Int
  requiredFree : Int
deriving DecidableEq

/-- `NewConnectionManager` (connection_manager.go lines 44-98), reduced to
its capacity gate: when the stats say the start is not safe the
constructor fails with the observed numbers, otherwise it returns the
manager (represented by the stats it observed). -/
def NewConnectionManager (cfg : DBConfig) (maxConns currentConns : Int) :
    Except CapacityError ConnectionStats :=
  let stats := GetConnectionStats cfg maxConns currentConns
  if stats.CanConnect = false then
    .error ⟨stats.MaxConnections, stats.CurrentConnections, stats.AvailableConnections,
      cfg.MinFreeConns⟩
  else .ok stats

/-- Worker count actually spawned, following `main.go`: a failed
`NewConnectionManager` is fatal (the process exits before
`LoadGenerator.Start`), otherwise `Start` spawns exactly
`ConcurrentWriters` workers. -/
def spawnedWorkers (cfg : Config) (maxConns currentConns : Int) : Int :=
  match NewConnectionManager cfg.DB maxConns currentConns with
  | .error _ => 0
  | .ok _ => cfg.Load.ConcurrentWriters

/-! ## Data-loss verification (`load_generator.go` lines 331-459)

The table is the finite set `db : Finset Int` of identifiers its rows
carry. -/

/-- Result of a data-loss check.  The Go function returns the pair
`(totalInserted, lost)`; `queries` instruments how many store queries
were issued and `rangeBased` which of the two strategies produced the
result (`true` for `checkDataLossOptimized`). -/
structure LossCheckResult where
  totalInserted : Int
  lost : Int
  queries : Nat
  rangeBased : Bool
deriving DecidableEq

/-- The error of a cancelled check, carrying the number of queries issued
when the cancellation signal was observed. -/
inductive CheckErr where
  | cancelled (queriesIssued : Nat)
deriving DecidableEq

/-- `SELECT COUNT(*) FROM t WHERE id IN (chunk)`: the number of table rows
whose identifier occurs in the chunk. -/
def countInChunk (db : Finset Int) (chunk : List Int) : Nat :=
  (db.filter (fun v => v ∈ chunk)).card

/-- `SELECT COUNT(*) FROM t WHERE id >= lo AND id <= hi`. -/
def countInRange (db : Finset Int) (lo hi : Int) : Nat :=
  (db.filter (fun v => lo ≤ v ∧ v ≤ hi)).card

/-- The chunking of `CheckDataLoss`: slices of `k` consecutive identifiers
(`insertedIDs[i:i+k]`), the last one shorter. -/
def chunksOf (k : Nat) : List Int → List (List Int)
  | [] => []
  | x :: xs => (x :: xs.take (k - 1)) :: chunksOf k (xs.drop (k - 1))
termination_by l => l.length
decreasing_by
  simp only [List.length_cons, List.length_drop]
  omega

/-- The chunk loop of `CheckDataLoss` (load_generator.go lines 354-392):
before each batch query observe the cancellation signal and abort with a
cancellation error if it has fired; otherwise issue the membership-count
query and accumulate.  `found` and `queries` are the loop accumulators. -/
def checkChunks (db : Finset Int) (done : Nat → Bool) :
    List (List Int) → Nat → Nat → Except CheckErr (Nat × Nat)
  | [], found, queries => .ok (found, queries)
  | c :: cs, found, queries =>
    if done queries then .error (.cancelled queries)
    else checkChunks db done cs (found + countInChunk db c) (queries + 1)

/-- `minID` scan of `checkDataLossOptimized` (load_generator.go lines
408-417): start from the first identifier, fold `min` over the list. -/
def minOfIDs : List Int → Int
  | [] => 0
  | x :: xs => (x :: xs).foldl min x

/-- `maxID` scan of `checkDataLossOptimized`, same loop as `minOfIDs`. -/
def maxOfIDs : List Int → Int
  | [] => 0
  | x :: xs => (x :: xs).foldl max x

/-- `LoadGenerator.checkDataLossOptimized` (load_generator.go lines
402-459): guard the empty set, compute `minID`/`maxID` in memory, observe
the cancellation signal once, issue the single range-count query; if the
range count covers the whole set report zero loss, otherwise report
`totalInserted - foundInRange` clamped at zero. -/
def checkDataLossOptimized (insertedIDs : List Int) (db : Finset Int) (done : Nat → Bool) :
    Except CheckErr LossCheckResult :=
  match insertedIDs with
  | [] => .ok ⟨0, 0, 0, true⟩
  | x :: xs =>
    let minID := minOfIDs (x :: xs)
    let maxID := maxOfIDs (x :: xs)
    if done 0 then .error (.cancelled 0)
    else
      let total : Int := (x :: xs).length
      let foundInRange : Int := countInRange db minID maxID
      if foundInRange ≥ total then .ok ⟨total, 0, 1, true⟩
      else .ok ⟨total, max (total - foundInRange) 0, 1, true⟩

/-- `LoadGenerator.CheckDataLoss` (load_generator.go lines 331-399): an
empty tracked set reports `(0, 0)` without touching the store; a set of
more than 100000 identifiers goes to the range-based strategy; otherwise
the identifiers are checked in chunks of 10000 and the check returns
`(totalInserted, totalInserted - found)`. -/
def CheckDataLoss (insertedIDs : List Int) (db : Finset Int) (done : Nat → Bool) :
    Except CheckErr LossCheckResult :=
  if insertedIDs.length = 0 then .ok ⟨0, 0, 0, false⟩
  else if 100000 < insertedIDs.length then checkDataLossOptimized insertedIDs db done
  else
    match checkChunks db done (chunksOf 10000 insertedIDs) 0 0 with
    | .error e => .error e
    | .ok (found, queries) =>
      .ok ⟨insertedIDs.length, (insertedIDs.length : Int) - found, queries, false⟩

/-! ## Helper lemmas -/

theorem insertedIDs_foldl (ids : List Int) : ∀ m : Metrics,
    (ids.foldl RecordInsertedID m).insertedIDs = m.insertedIDs ∪ ids.toFinset := by
  induction ids with
  | nil => intro m; simp
  | cons a l ih =>
    intro m
    simp only [List.foldl_cons, ih, RecordInsertedID, List.toFinset_cons]
    rw [Finset.insert_union, Finset.union_insert]

theorem totalInsertedIDs_foldl (ids : List Int) : ∀ m : Metrics,
    (ids.foldl RecordInsertedID m).totalInsertedIDs = m.totalInsertedIDs + ids.length := by
  induction ids with
  | nil => intro m; simp
  | cons a l ih =>
    intro m
    simp only [List.foldl_cons, ih, RecordInsertedID, List.length_cons]
    omega

theorem le_foldl_max (l : List Int) : ∀ a y : Int, (y = a ∨ y ∈ l) → y ≤ l.foldl max a := by
  induction l with
  | nil =>
    intro a y h
    rcases h with rfl | h
    · exact le_refl y
    · simp at h
  | cons x xs ih =>
    intro a y h
    simp only [List.foldl_cons]
    have hbase : max a x ≤ xs.foldl max (max a x) := ih (max a x) (max a x) (Or.inl rfl)
    rcases h with rfl | h
    · exact le_trans (le_max_left y x) hbase
    · rcases List.mem_cons.mp h with rfl | h
      · exact le_trans (le_max_right a y) hbase
      · exact ih (max a x) y (Or.inr h)

theorem percentileIndex_lt (n p : Nat) (hn : 0 < n) : percentileIndex n p < n := by
  rw [percentileIndex]
  split_ifs with h <;> omega

theorem percentileIndex_mono (n : Nat) {p q : Nat} (hpq : p ≤ q) :
    percentileIndex n p ≤ percentileIndex n q := by
  rw [percentileIndex, percentileIndex]
  have h1 : n * p / 100 ≤ n * q / 100 :=
    Nat.div_le_div_right (Nat.mul_le_mul_left n hpq)
  split_ifs with ha hb <;> omega

theorem chunksOf_spec (k : Nat) (hk : 0 < k) : ∀ (n : Nat) (l : List Int), l.length ≤ n →
    (∀ c ∈ chunksOf k l, c.length ≤ k) ∧ (chunksOf k l).flatten = l := by
  intro n
  induction n with
  | zero =>
    intro l hl
    have h0 : l = [] := List.eq_nil_of_length_eq_zero (Nat.le_zero.mp hl)
    subst h0
    simp [chunksOf]
  | succ n ih =>
    intro l hl
    match l with
    | [] => simp [chunksOf]
    | x :: xs =>
      rw [chunksOf]
      have hdrop : (xs.drop (k - 1)).length ≤ n := by
        simp only [List.length_drop]
        simp only [List.length_cons] at hl
        omega
      obtain ⟨h1, h2⟩ := ih (xs.drop (k - 1)) hdrop
      constructor
      · intro c hc
        rcases List.mem_cons.mp hc with rfl | hc
        · simp only [List.length_cons, List.length_take]
          omega
        · exact h1 c hc
      · rw [List.flatten_cons, h2, List.cons_append, List.take_append_drop]

theorem checkChunks_no_cancel (db : Finset Int) (done : Nat → Bool)
    (hd : ∀ n, done n = false) :
    ∀ (cs : List (List Int)) (found queries : Nat),
      checkChunks db done cs found queries =
        .ok (found + (cs.map (countInChunk db)).sum, queries + cs.length) := by
  intro cs
  induction cs with
  | nil => intro f q; simp [checkChunks]
  | cons c cs ih =>
    intro f q
    rw [checkChunks, hd q]
    simp only [Bool.false_eq_true, if_false, ih, List.map_cons, List.sum_cons,
      List.length_cons, Except.ok.injEq, Prod.mk.injEq]
    omega

theorem checkChunks_cancel (db : Finset Int) (done : Nat → Bool) :
    ∀ (cs : List (List Int)) (found queries i : Nat),
      queries ≤ i → i < queries + cs.length → done i = true →
      ∃ j, queries ≤ j ∧ j ≤ i ∧ done j = true ∧
        checkChunks db done cs found queries = .error (.cancelled j) := by
  intro cs
  induction cs with
  | nil =>
    intro f q i h1 h2 h3
    simp only [List.length_nil, Nat.add_zero] at h2
    exact absurd h1 (by omega)
  | cons c cs ih =>
    intro f q i h1 h2 h3
    by_cases hq : done q = true
    · exact ⟨q, le_refl q, h1, hq, by rw [checkChunks, if_pos hq]⟩
    · have hqf : done q = false := by
        cases hdq : done q
        · rfl
        · exact absurd hdq hq
      have hiq : q + 1 ≤ i := by
        rcases Nat.eq_or_lt_of_le h1 with rfl | h
        · rw [h3] at hqf; exact absurd hqf (by simp)
        · omega
      obtain ⟨j, hj1, hj2, hj3, hj4⟩ :=
        ih (f + countInChunk db c) (q + 1) i hiq
          (by simp only [List.length_cons] at h2; omega) h3
      refine ⟨j, by omega, hj2, hj3, ?_⟩
      rw [checkChunks, if_neg (by simp [hqf]), hj4]

theorem checkChunks_ok_not_fired (db : Finset Int) (done : Nat → Bool) :
    ∀ (cs : List (List Int)) (found queries : Nat) (p : Nat × Nat),
      checkChunks db done cs found queries = .ok p →
      ∀ i, queries ≤ i → i < queries + cs.length → done i = false := by
  intro cs
  induction cs with
  | nil =>
    intro f q p h i h1 h2
    simp only [List.length_nil, Nat.add_zero] at h2
    exact absurd h1 (by omega)
  | cons c cs ih =>
    intro f q p h i h1 h2
    rw [checkChunks] at h
    by_cases hq : done q = true
    · rw [if_pos hq] at h
      exact Except.noConfusion h
    · have hqf : done q = false := by
        cases hdq : done q
        · rfl
        · exact absurd hdq hq
      rw [if_neg (by simp [hqf])] at h
      rcases Nat.eq_or_lt_of_le h1 with rfl | hlt
      · exact hqf
      · exact ih _ _ p h i hlt (by simp only [List.length_cons] at h2; omega)

theorem sum_countInChunk (db : Finset Int) (k : Nat) :
    ∀ (n : Nat) (l : List Int), l.length ≤ n → l.Nodup →
      ((chunksOf k l).map (countInChunk db)).sum =
        (db.filter (fun v => v ∈ l)).card := by
  intro n
  induction n with
  | zero =>
    intro l hl _
    have h0 : l = [] := List.eq_nil_of_length_eq_zero (Nat.le_zero.mp hl)
    subst h0
    simp [chunksOf, countInChunk]
  | succ n ih =>
    intro l hl hnd
    match l with
    | [] => simp [chunksOf]
    | x :: xs =>
      rw [chunksOf]
      simp only [List.map_cons, List.sum_cons]
      have hsplit : (x :: xs.take (k - 1)) ++ xs.drop (k - 1) = x :: xs := by
        rw [List.cons_append, List.take_append_drop]
      have hnd2 : ((x :: xs.take (k - 1)) ++ xs.drop (k - 1)).Nodup := by
        rw [hsplit]; exact hnd
      have hndrest : (xs.drop (k - 1)).Nodup := hnd2.of_append_right
      have hdisj : List.Disjoint (x :: xs.take (k - 1)) (xs.drop (k - 1)) :=
        List.disjoint_of_nodup_append hnd2
      have ihrest := ih (xs.drop (k - 1))
        (by
          simp only [List.length_drop]
          simp only [List.length_cons] at hl
          omega)
        hndrest
      rw [ihrest, countInChunk]
      have hmemsplit : ∀ v : Int,
          v ∈ x :: xs ↔ v ∈ x :: xs.take (k - 1) ∨ v ∈ xs.drop (k - 1) := by
        intro v
        rw [← hsplit]
        exact List.mem_append
      have hfsplit : db.filter (fun v => v ∈ x :: xs) =
          db.filter (fun v => v ∈ x :: xs.take (k - 1)) ∪
            db.filter (fun v => v ∈ xs.drop (k - 1)) := by
        rw [← Finset.filter_or]
        ext v
        simp only [Finset.mem_filter, hmemsplit v]
      have hfdisj : Disjoint (db.filter (fun v => v ∈ x :: xs.take (k - 1)))
          (db.filter (fun v => v ∈ xs.drop (k - 1))) := by
        rw [Finset.disjoint_left]
        intro a ha hb
        simp only [Finset.mem_filter] at ha hb
        exact hdisj ha.2 hb.2
      rw [hfsplit, Finset.card_union_of_disjoint hfdisj]

/-! ## Claim theorems -/

/-- C1 (amended).  The original engine's `batchInsert` requests
`RETURNING id` and records every returned identifier into the tracked
inserted-identifier set via `RecordInsertedID`; the V2 engine's
`batchInsert` issues the statement without requesting identifiers and
records none of them. -/
theorem claim_C1_inserted_ids_recorded (m : Metrics) (ids : List Int) :
    (∀ id ∈ ids, id ∈ (batchInsert m ids).insertedIDs) ∧
    recordedIDsOfBatchV2 ids = [] := by
  constructor
  · intro id hid
    rw [batchInsert, insertedIDs_foldl, Finset.mem_union, List.mem_toFinset]
    exact Or.inr hid
  · rfl

/-- C1 witness: identifier 7, returned for a one-row batch, lands in the
tracked set of the original engine. -/
theorem claim_C1_witness :
    (7 : Int) ∈ (batchInsert Metrics.new [(7 : Int)]).insertedIDs ∧
    recordedIDsOfBatchV2 [(7 : Int)] = [] :=
  ⟨(claim_C1_inserted_ids_recorded Metrics.new [(7 : Int)]).1 7 (by decide),
    (claim_C1_inserted_ids_recorded Metrics.new [(7 : Int)]).2⟩

/-- C1 counterexample: the claim quantifies over every engine variant, but
the V2 engine records no identifier of an accepted batch whose assigned
identifier is 1. -/
theorem claim_C1_cex :
    (1 : Int) ∈ [(1 : Int)] ∧ (1 : Int) ∉ recordedIDsOfBatchV2 [(1 : Int)] := by
  constructor
  · exact List.mem_singleton.mpr rfl
  · intro h
    simp [recordedIDsOfBatchV2] at h

/-- C9.  The tracked set deduplicates: after any sequence of
`RecordInsertedID` calls starting from a fresh `Metrics`, the set holds
exactly the distinct recorded identifiers, the enumeration returned by
`GetInsertedIDs` is duplicate-free, its length never exceeds the
cumulative `totalInsertedIDs` counter, and it equals the counter when
all recorded identifiers were distinct. -/
theorem claim_C9_dedup (ids : List Int) :
    (ids.foldl RecordInsertedID Metrics.new).insertedIDs = ids.toFinset ∧
    (GetInsertedIDs (ids.foldl RecordInsertedID Metrics.new)).Nodup ∧
    (GetInsertedIDs (ids.foldl RecordInsertedID Metrics.new)).length ≤
      (ids.foldl RecordInsertedID Metrics.new).totalInsertedIDs ∧
    (ids.Nodup →
      (GetInsertedIDs (ids.foldl RecordInsertedID Metrics.new)).length =
        (ids.foldl RecordInsertedID Metrics.new).totalInsertedIDs) := by
  have h1 : (ids.foldl RecordInsertedID Metrics.new).insertedIDs = ids.toFinset := by
    rw [insertedIDs_foldl]
    simp [Metrics.new]
  have h2 : (ids.foldl RecordInsertedID Metrics.new).totalInsertedIDs = ids.length := by
    rw [totalInsertedIDs_foldl]
    simp [Metrics.new]
  refine ⟨h1, Finset.sort_nodup _ _, ?_, ?_⟩
  · rw [GetInsertedIDs, Finset.length_sort, h1, h2]
    exact List.toFinset_card_le ids
  · intro hnd
    rw [GetInsertedIDs, Finset.length_sort, h1, h2, List.toFinset_card_of_nodup hnd]

/-- C9 witness: three distinct recorded identifiers give an enumeration of
length equal to the counter, and it is duplicate-free. -/
theorem claim_C9_witness :
    (GetInsertedIDs ([(1 : Int), 2, 3].foldl RecordInsertedID Metrics.new)).length =
      ([(1 : Int), 2, 3].foldl RecordInsertedID Metrics.new).totalInsertedIDs ∧
    (GetInsertedIDs ([(1 : Int), 2, 3].foldl RecordInsertedID Metrics.new)).Nodup :=
  ⟨(claim_C9_dedup [(1 : Int), 2, 3]).2.2.2 (by decide),
    (claim_C9_dedup [(1 : Int), 2, 3]).2.1⟩

/-- C10.  On an empty tracked set the data-loss check — both the
dispatching `CheckDataLoss` and the range-based routine — reports zero
total and zero lost with no error and issues no store query. -/
theorem claim_C10_empty_check (db : Finset Int) (done : Nat → Bool) :
    CheckDataLoss [] db done = .ok ⟨0, 0, 0, false⟩ ∧
    checkDataLossOptimized [] db done = .ok ⟨0, 0, 0, true⟩ :=
  ⟨rfl, rfl⟩

/-- C4.  The capacity assessment reports `available = max - inUse` and is
safe exactly when `available` is at least the configured minimum free
connections; when it is not safe, `NewConnectionManager` fails with an
error carrying the observed numbers, and the `main.go` flow spawns no
workers. -/
theorem claim_C4_capacity (cfg : Config) (maxConns currentConns : Int) :
    (GetConnectionStats cfg.DB maxConns currentConns).AvailableConnections =
      maxConns - currentConns ∧
    ((GetConnectionStats cfg.DB maxConns currentConns).CanConnect = true ↔
      cfg.DB.MinFreeConns ≤ maxConns - currentConns) ∧
    (maxConns - currentConns < cfg.DB.MinFreeConns →
      NewConnectionManager cfg.DB maxConns currentConns =
        .error ⟨maxConns, currentConns, maxConns - currentConns, cfg.DB.MinFreeConns⟩ ∧
      spawnedWorkers cfg maxConns currentConns = 0) := by
  refine ⟨rfl, by simp [GetConnectionStats, ge_iff_le], ?_⟩
  intro h
  have hc : (GetConnectionStats cfg.DB maxConns currentConns).CanConnect = false := by
    simp only [GetConnectionStats, decide_eq_false_iff_not, ge_iff_le, not_le]
    exact h
  have herr : NewConnectionManager cfg.DB maxConns currentConns =
      .error ⟨maxConns, currentConns, maxConns - currentConns, cfg.DB.MinFreeConns⟩ := by
    simp only [NewConnectionManager, hc, if_pos]
    rfl
  refine ⟨herr, ?_⟩
  rw [spawnedWorkers, herr]

/-- C4 witness, the spec's Scenario D shape: maximum 10, 8 in use, so 2
available against a required headroom of 5 — construction fails with the
observed numbers and zero workers are spawned. -/
theorem claim_C4_witness :
    NewConnectionManager
        ⟨"localhost", 5432, "postgres", "", "testdb", "disable", 50, 10, 5⟩ 10 8 =
      .error ⟨10, 8, 10 - 8, 5⟩ ∧
    spawnedWorkers
        ⟨⟨"localhost", 5432, "postgres", "", "testdb", "disable", 50, 10, 5⟩,
          ⟨10, 300 * timeSecond, 100, 10 * timeSecond⟩,
          ⟨0, 70, 30, "load_test_data", 10⟩⟩ 10 8 = 0 :=
  (claim_C4_capacity
    ⟨⟨"localhost", 5432, "postgres", "", "testdb", "disable", 50, 10, 5⟩,
      ⟨10, 300 * timeSecond, 100, 10 * timeSecond⟩,
      ⟨0, 70, 30, "load_test_data", 10⟩⟩ 10 8).2.2 (by decide)

theorem validate_ok_weights (c : Config) (h : Validate c = .ok ()) :
    c.Workload.ReadPercent + c.Workload.InsertPercent + c.Workload.UpdatePercent = 100 ∧
    0 ≤ c.Workload.ReadPercent ∧ c.Workload.ReadPercent ≤ 100 ∧
    0 ≤ c.Workload.InsertPercent ∧ c.Workload.InsertPercent ≤ 100 ∧
    0 ≤ c.Workload.UpdatePercent ∧ c.Workload.UpdatePercent ≤ 100 := by
  rw [Validate] at h
  by_cases h1 : c.DB.Host = ""
  · rw [if_pos h1] at h; exact Except.noConfusion h
  rw [if_neg h1] at h
  by_cases h2 : c.DB.User = ""
  · rw [if_pos h2] at h; exact Except.noConfusion h
  rw [if_neg h2] at h
  by_cases h3 : c.DB.DBName = ""
  · rw [if_pos h3] at h; exact Except.noConfusion h
  rw [if_neg h3] at h
  by_cases h4 : c.DB.MinFreeConns < 1
  · rw [if_pos h4] at h; exact Except.noConfusion h
  rw [if_neg h4] at h
  by_cases h5 : c.Load.ConcurrentWriters < 1
  · rw [if_pos h5] at h; exact Except.noConfusion h
  rw [if_neg h5] at h
  by_cases h6 : c.Load.Duration < timeSecond
  · rw [if_pos h6] at h; exact Except.noConfusion h
  rw [if_neg h6] at h
  by_cases h7 : c.Load.BatchSize < 1
  · rw [if_pos h7] at h; exact Except.noConfusion h
  rw [if_neg h7] at h
  by_cases h8 :
      c.Workload.ReadPercent + c.Workload.InsertPercent + c.Workload.UpdatePercent ≠ 100
  · rw [if_pos h8] at h; exact Except.noConfusion h
  rw [if_neg h8] at h
  by_cases h9 : c.Workload.ReadPercent < 0 ∨ 100 < c.Workload.ReadPercent
  · rw [if_pos h9] at h; exact Except.noConfusion h
  rw [if_neg h9] at h
  by_cases h10 : c.Workload.InsertPercent < 0 ∨ 100 < c.Workload.InsertPercent
  · rw [if_pos h10] at h; exact Except.noConfusion h
  rw [if_neg h10] at h
  by_cases h11 : c.Workload.UpdatePercent < 0 ∨ 100 < c.Workload.UpdatePercent
  · rw [if_pos h11] at h; exact Except.noConfusion h
  rw [if_neg h11] at h
  push_neg at h8 h9 h10 h11
  omega

/-- C5.  A configuration passes `Validate` only if its three workload
weights sum to exactly 100 and each lies in [0, 100]; any configuration
violating one of these weight constraints is rejected with an error. -/
theorem claim_C5_weights (c : Config) :
    (Validate c = .ok () →
      c.Workload.ReadPercent + c.Workload.InsertPercent + c.Workload.UpdatePercent = 100 ∧
      0 ≤ c.Workload.ReadPercent ∧ c.Workload.ReadPercent ≤ 100 ∧
      0 ≤ c.Workload.InsertPercent ∧ c.Workload.InsertPercent ≤ 100 ∧
      0 ≤ c.Workload.UpdatePercent ∧ c.Workload.UpdatePercent ≤ 100) ∧
    ((c.Workload.ReadPercent + c.Workload.InsertPercent + c.Workload.UpdatePercent ≠ 100 ∨
      c.Workload.ReadPercent < 0 ∨ 100 < c.Workload.ReadPercent ∨
      c.Workload.InsertPercent < 0 ∨ 100 < c.Workload.InsertPercent ∨
      c.Workload.UpdatePercent < 0 ∨ 100 < c.Workload.UpdatePercent) →
      ∃ e, Validate c = .error e) := by
  refine ⟨validate_ok_weights c, ?_⟩
  intro hbad
  cases hv : Validate c with
  | error e => exact ⟨e, rfl⟩
  | ok u =>
    cases u
    exfalso
    obtain ⟨hsum, hr0, hr1, hi0, hi1, hu0, hu1⟩ := validate_ok_weights c hv
    rcases hbad with h | h | h | h | h | h | h <;> omega

/-- C5 witness: the default-shaped configuration (weights 0/70/30) is
accepted and indeed has weights summing to 100 inside [0, 100]. -/
theorem claim_C5_witness :
    (⟨⟨"localhost", 5432, "postgres", "", "testdb", "disable", 50, 10, 5⟩,
        ⟨10, 300 * timeSecond, 100, 10 * timeSecond⟩,
        ⟨0, 70, 30, "load_test_data", 10⟩⟩ : Config).Workload.ReadPercent +
      (⟨⟨"localhost", 5432, "postgres", "", "testdb", "disable", 50, 10, 5⟩,
        ⟨10, 300 * timeSecond, 100, 10 * timeSecond⟩,
        ⟨0, 70, 30, "load_test_data", 10⟩⟩ : Config).Workload.InsertPercent +
      (⟨⟨"localhost", 5432, "postgres", "", "testdb", "disable", 50, 10, 5⟩,
        ⟨10, 300 * timeSecond, 100, 10 * timeSecond⟩,
        ⟨0, 70, 30, "load_test_data", 10⟩⟩ : Config).Workload.UpdatePercent = 100 :=
  ((claim_C5_weights
    ⟨⟨"localhost", 5432, "postgres", "", "testdb", "disable", 50, 10, 5⟩,
      ⟨10, 300 * timeSecond, 100, 10 * timeSecond⟩,
      ⟨0, 70, 30, "load_test_data", 10⟩⟩).1 (by rfl)).1

/-- C6 (amended).  The V2 worker's choice is exactly the claimed
cumulative-threshold band selection; the original worker has no read
band — it compares the roll against `InsertPercent` alone — and agrees
with the band selection exactly on configurations whose read weight is
zero. -/
theorem claim_C6_operation_choice (w : WorkloadConfig) (roll : Int) :
    chooseOpV2 w roll = bandChoice w roll ∧
    (w.ReadPercent = 0 → 0 ≤ roll → chooseOpV1 w roll = bandChoice w roll) := by
  refine ⟨rfl, ?_⟩
  intro h0 hroll
  have hneg : ¬ roll < (0 : Int) := by omega
  simp [chooseOpV1, bandChoice, h0, hneg]

/-- C6 witness: with weights 0/70/30 and roll 50 the original worker's
choice coincides with the claimed band selection. -/
theorem claim_C6_witness :
    chooseOpV1 ⟨0, 70, 30, "load_test_data", 10⟩ 50 =
      bandChoice ⟨0, 70, 30, "load_test_data", 10⟩ 50 :=
  (claim_C6_operation_choice ⟨0, 70, 30, "load_test_data", 10⟩ 50).2 rfl (by decide)

/-- C6 counterexample: with weights 30/40/30 and roll 10 the claimed
selection says read (10 < 30), but the original worker performs an
insert (10 < 40): the claim fails for the original engine variant. -/
theorem claim_C6_cex :
    bandChoice ⟨30, 40, 30, "load_test_data", 10⟩ 10 = OpKind.read ∧
    chooseOpV1 ⟨30, 40, 30, "load_test_data", 10⟩ 10 = OpKind.insert ∧
    OpKind.insert ≠ OpKind.read := by
  refine ⟨?_, ?_, by decide⟩
  · rw [bandChoice]
    norm_num
  · rw [chooseOpV1]
    norm_num

theorem calcPercentile_mono (l : List Int) (hne : l ≠ []) {p q : Nat} (hpq : p ≤ q) :
    calculatePercentile l p ≤ calculatePercentile l q := by
  match l, hne with
  | x :: xs, _ =>
    simp only [calculatePercentile]
    have hlen : ((x :: xs).insertionSort (· ≤ ·)).length = (x :: xs).length :=
      (List.perm_insertionSort _ _).length_eq
    have hn : 0 < (x :: xs).length := by simp
    have hip : percentileIndex (x :: xs).length p <
        ((x :: xs).insertionSort (· ≤ ·)).length := by
      rw [hlen]; exact percentileIndex_lt _ _ hn
    have hiq : percentileIndex (x :: xs).length q <
        ((x :: xs).insertionSort (· ≤ ·)).length := by
      rw [hlen]; exact percentileIndex_lt _ _ hn
    rw [List.getD_eq_getElem _ 0 hip, List.getD_eq_getElem _ 0 hiq]
    have hsorted : ((x :: xs).insertionSort (· ≤ ·)).Sorted (· ≤ ·) :=
      List.sorted_insertionSort _ _
    have hmono := hsorted.rel_get_of_le (a := ⟨_, hip⟩) (b := ⟨_, hiq⟩)
      (Fin.mk_le_mk.mpr (percentileIndex_mono _ hpq))
    simpa using hmono

theorem calcPercentile_le_max (l : List Int) (hne : l ≠ []) (p : Nat) :
    calculatePercentile l p ≤ maxOfBuffer l := by
  match l, hne with
  | x :: xs, _ =>
    simp only [calculatePercentile, maxOfBuffer]
    have hlen : ((x :: xs).insertionSort (· ≤ ·)).length = (x :: xs).length :=
      (List.perm_insertionSort _ _).length_eq
    have hn : 0 < (x :: xs).length := by simp
    have hip : percentileIndex (x :: xs).length p <
        ((x :: xs).insertionSort (· ≤ ·)).length := by
      rw [hlen]; exact percentileIndex_lt _ _ hn
    rw [List.getD_eq_getElem _ 0 hip]
    have hmem : ((x :: xs).insertionSort (· ≤ ·))[percentileIndex (x :: xs).length p] ∈
        (x :: xs).insertionSort (· ≤ ·) := List.getElem_mem hip
    have hmem2 := (List.perm_insertionSort (· ≤ ·) (x :: xs)).subset hmem
    rcases List.mem_cons.mp hmem2 with heq | hmem3
    · exact le_foldl_max xs x _ (Or.inl heq)
    · exact le_foldl_max xs x _ (Or.inr hmem3)

/-- C8.  On every non-empty latency buffer the percentiles computed by
`calculatePercentile` — taken at index floor(n * p / 100) clamped to
n - 1 in a sorted private copy — satisfy p50 ≤ p95 ≤ p99 ≤ max(buffer). -/
theorem claim_C8_percentile_order (l : List Int) (hne : l ≠ []) :
    calculatePercentile l 50 ≤ calculatePercentile l 95 ∧
    calculatePercentile l 95 ≤ calculatePercentile l 99 ∧
    calculatePercentile l 99 ≤ maxOfBuffer l :=
  ⟨calcPercentile_mono l hne (by norm_num), calcPercentile_mono l hne (by norm_num),
    calcPercentile_le_max l hne 99⟩

/-- C8 witness: the buffer [5, 1, 3]. -/
theorem claim_C8_witness :
    calculatePercentile [(5 : Int), 1, 3] 50 ≤ calculatePercentile [(5 : Int), 1, 3] 95 ∧
    calculatePercentile [(5 : Int), 1, 3] 95 ≤ calculatePercentile [(5 : Int), 1, 3] 99 ∧
    calculatePercentile [(5 : Int), 1, 3] 99 ≤ maxOfBuffer [(5 : Int), 1, 3] :=
  claim_C8_percentile_order [(5 : Int), 1, 3] (by decide)

/-- C3.  On a duplicate-free tracked set of fewer than 100000 identifiers
and an uncancelled run, the data-loss check takes the chunked strategy:
chunks of at most 10000 identifiers, one membership-count query per
chunk, and an exact result — `found` is the number of tracked
identifiers actually present, and `lost = n - found`, with the
range-based flag off. -/
theorem claim_C3_chunked_exact (ids : List Int) (db : Finset Int) (done : Nat → Bool)
    (hlen : ids.length < 100000) (hnd : ids.Nodup) (hdone : ∀ n, done n = false) :
    CheckDataLoss ids db done =
      .ok ⟨ids.length, (ids.length : Int) - (db.filter (fun v => v ∈ ids)).card,
        (chunksOf 10000 ids).length, false⟩ ∧
    (∀ c ∈ chunksOf 10000 ids, c.length ≤ 10000) := by
  refine ⟨?_, (chunksOf_spec 10000 (by norm_num) ids.length ids (le_refl _)).1⟩
  by_cases hz : ids.length = 0
  · have h0 : ids = [] := List.eq_nil_of_length_eq_zero hz
    subst h0
    simp [CheckDataLoss, chunksOf]
  · rw [CheckDataLoss, if_neg hz, if_neg (by omega)]
    rw [checkChunks_no_cancel db done hdone]
    simp only [Nat.zero_add]
    rw [sum_countInChunk db 10000 ids.length ids (le_refl _) hnd]

/-- C3 witness: the two-identifier tracked set [3, 1] against an empty
table, never cancelled. -/
theorem claim_C3_witness :
    CheckDataLoss [(3 : Int), 1] ∅ (fun _ => false) =
      .ok ⟨([(3 : Int), 1].length : Int),
        (([(3 : Int), 1].length : Int)) -
          ((∅ : Finset Int).filter (fun v => v ∈ [(3 : Int), 1])).card,
        (chunksOf 10000 [(3 : Int), 1]).length, false⟩ ∧
    (∀ c ∈ chunksOf 10000 [(3 : Int), 1], c.length ≤ 10000) :=
  claim_C3_chunked_exact [(3 : Int), 1] ∅ (fun _ => false) (by norm_num) (by decide)
    (fun _ => rfl)

/-- C2 (amended).  On a tracked set of strictly more than 100000
identifiers whose single range query is not pre-empted by cancellation,
the data-loss check takes the range-based strategy: `minId`/`maxId` are
folded over the set in memory, exactly one range-count query is issued,
`lost = max(n - rangeCount, 0)` and hence `found = n - lost =
min(rangeCount, n)`, with the range-based flag on.  (At exactly 100000
the chunked strategy is used: the source threshold is strict.) -/
theorem claim_C2_range_strategy (ids : List Int) (db : Finset Int) (done : Nat → Bool)
    (hlen : 100000 < ids.length) (hdone : done 0 = false) :
    CheckDataLoss ids db done =
      .ok ⟨ids.length,
        max ((ids.length : Int) - countInRange db (minOfIDs ids) (maxOfIDs ids)) 0,
        1, true⟩ ∧
    (ids.length : Int) -
        max ((ids.length : Int) - countInRange db (minOfIDs ids) (maxOfIDs ids)) 0 =
      min ((countInRange db (minOfIDs ids) (maxOfIDs ids) : Int)) (ids.length : Int) := by
  match ids, hlen with
  | x :: xs, hlen =>
    constructor
    · rw [CheckDataLoss, if_neg (by simp), if_pos hlen]
      simp only [checkDataLossOptimized]
      rw [if_neg (by simp [hdone])]
      by_cases hge : (countInRange db (minOfIDs (x :: xs)) (maxOfIDs (x :: xs)) : Int) ≥
          ((x :: xs).length : Int)
      · rw [if_pos hge]
        simp only [Except.ok.injEq, LossCheckResult.mk.injEq]
        exact ⟨trivial, by omega, trivial, trivial⟩
      · rw [if_neg hge]
    · omega

/-- C2 witness: the 100001 identifiers 0..100000 against an empty table,
never cancelled. -/
theorem claim_C2_witness :
    CheckDataLoss ((List.range 100001).map Int.ofNat) ∅ (fun _ => false) =
      .ok ⟨(((List.range 100001).map Int.ofNat).length : Int),
        max ((((List.range 100001).map Int.ofNat).length : Int) -
          countInRange ∅ (minOfIDs ((List.range 100001).map Int.ofNat))
            (maxOfIDs ((List.range 100001).map Int.ofNat))) 0,
        1, true⟩ :=
  (claim_C2_range_strategy ((List.range 100001).map Int.ofNat) ∅ (fun _ => false)
    (by rw [List.length_map, List.length_range]; norm_num) rfl).1

/-- C2 counterexample: at exactly 100000 tracked identifiers the claim
says the range-based strategy is used, but `CheckDataLoss` takes the
chunked branch (the source condition is `len > 100000`): the result's
range-based flag is off. -/
theorem claim_C2_cex :
    ((List.range 100000).map Int.ofNat).length = 100000 ∧
    (CheckDataLoss ((List.range 100000).map Int.ofNat) ∅ (fun _ => false)).map
      (fun r => r.rangeBased) = .ok false := by
  have hlen : ((List.range 100000).map Int.ofNat).length = 100000 := by
    rw [List.length_map, List.length_range]
  refine ⟨hlen, ?_⟩
  rw [CheckDataLoss, if_neg (by rw [hlen]; norm_num), if_neg (by rw [hlen]; norm_num)]
  rw [checkChunks_no_cancel ∅ (fun _ => false) (fun _ => rfl)]
  rfl

/-- C7.  On the chunked path (at most 100000 tracked identifiers), if the
cancellation signal fires before one of the per-chunk queries the check
aborts with a cancellation error — it never returns a found/lost result
— and conversely any returned result certifies the signal never fired
before any issued chunk query. -/
theorem claim_C7_cancellation (ids : List Int) (db : Finset Int) (done : Nat → Bool)
    (hlen : ids.length ≤ 100000) :
    ((∃ i, i < (chunksOf 10000 ids).length ∧ done i = true) →
      ∃ q, q < (chunksOf 10000 ids).length ∧ done q = true ∧
        CheckDataLoss ids db done = .error (.cancelled q)) ∧
    (∀ r, CheckDataLoss ids db done = .ok r →
      ∀ i, i < (chunksOf 10000 ids).length → done i = false) := by
  constructor
  · rintro ⟨i, hi, hfired⟩
    have hne : ¬ ids.length = 0 := by
      intro h0
      have h0' : ids = [] := List.eq_nil_of_length_eq_zero h0
      subst h0'
      simp [chunksOf] at hi
    obtain ⟨j, hj0, hjle, hjf, hjres⟩ :=
      checkChunks_cancel db done (chunksOf 10000 ids) 0 0 i (Nat.zero_le i)
        (by simpa using hi) hfired
    refine ⟨j, lt_of_le_of_lt hjle hi, hjf, ?_⟩
    rw [CheckDataLoss, if_neg hne, if_neg (by omega), hjres]
  · intro r hr i hi
    by_cases hne : ids.length = 0
    · have h0 : ids = [] := List.eq_nil_of_length_eq_zero hne
      subst h0
      simp [chunksOf] at hi
    · rw [CheckDataLoss, if_neg hne, if_neg (by omega)] at hr
      cases hck : checkChunks db done (chunksOf 10000 ids) 0 0 with
      | error e => rw [hck] at hr; exact Except.noConfusion hr
      | ok p =>
        exact checkChunks_ok_not_fired db done _ 0 0 p hck i (Nat.zero_le i)
          (by simpa using hi)

/-- C7 witness: a one-identifier set with the signal already fired — the
check aborts with a cancellation error before its only chunk query. -/
theorem claim_C7_witness :
    ∃ q, q < (chunksOf 10000 [(1 : Int)]).length ∧ (fun _ : Nat => true) q = true ∧
      CheckDataLoss [(1 : Int)] ∅ (fun _ : Nat => true) = .error (.cancelled q) :=
  (claim_C7_cancellation [(1 : Int)] ∅ (fun _ => true) (by decide)).1
    ⟨0, by simp [chunksOf], rfl⟩

end HWLC
